import Mathlib

/-!
Verification of the pacing/ramp engine in `src/app/components/read.tsx`.

The estimator (`estimateReadTimeSeconds` with its inner helper
`computeRampSeconds`) is modelled over the real numbers; the word-advance
clock (`tick`), the live-ramp interpolation of the auto-scale effect
(`liveRampNextWpm`) and the ORP split (`getORPIndex`) are modelled over
`Rat`, `Int` and `List Char` so that concrete runs are decidable.
-/

/-- `clampWpm` from the source: `Math.max(MIN_WPM, Math.min(MAX_WPM, value))`
with `MIN_WPM = 1`, `MAX_WPM = 1500`. -/
noncomputable def clampWpm (value : ℝ) : ℝ :=
  max 1 (min 1500 value)

/-- The inner closure `computeRampSeconds` of `estimateReadTimeSeconds`
(lines 62-88 of the source), translated clause by clause. -/
noncomputable def computeRampSeconds
    (remainingWords startWpm endWpm seconds : ℝ) : ℝ :=
  let start := clampWpm startWpm
  let target := max start (clampWpm endWpm)
  if seconds ≤ 0 ∨ start = target then
    remainingWords / (target / 60)
  else
    let rampWords := ((start + target) / 2) * (seconds / 60)
    if rampWords ≤ remainingWords then
      seconds + (remainingWords - rampWords) / (target / 60)
    else
      let a := (target - start) / (2 * seconds)
      let b := start
      let c := -remainingWords * 60
      if a = 0 then
        remainingWords / (b / 60)
      else
        max 0 ((-b + Real.sqrt (max (b * b - 4 * a * c) 0)) / (2 * a))

/-- The argument record of `estimateReadTimeSeconds`.  `nowMs` stands for the
value of `Date.now()` during the call (the source reads the clock inside the
function; we pass the instant in as a parameter). -/
structure EstArgs where
  wordsRemaining : ℝ
  wpm : ℝ
  currentWpm : ℝ
  autoScaleEnabled : Bool
  targetWpm : ℝ
  rampSeconds : ℝ
  isPlaying : Bool
  rampStartWpm : ℝ
  rampStartTimeMs : Option ℝ
  nowMs : ℝ

/-- `estimateReadTimeSeconds` (lines 34-122 of the source); early returns
become nested conditionals. -/
noncomputable def estimateReadTimeSeconds (A : EstArgs) : ℝ :=
  if A.wordsRemaining ≤ 0 then 0
  else
    let clampedTarget := max (clampWpm A.wpm) (clampWpm A.targetWpm)
    let durationSeconds := max 0 A.rampSeconds
    if A.autoScaleEnabled = false then
      let baseWpm := if A.isPlaying = true then clampWpm A.currentWpm else clampWpm A.wpm
      A.wordsRemaining / (baseWpm / 60)
    else if A.isPlaying = true then
      let startedAt := A.rampStartTimeMs.getD A.nowMs
      let elapsedSeconds := max 0 (min durationSeconds ((A.nowMs - startedAt) / 1000))
      if durationSeconds ≤ elapsedSeconds then
        A.wordsRemaining / (clampedTarget / 60)
      else
        let start := clampWpm A.rampStartWpm
        let progress := if 0 < durationSeconds then elapsedSeconds / durationSeconds else 1
        let rampStartNow := start + (clampedTarget - start) * progress
        let remainingDuration := max 0 (durationSeconds - elapsedSeconds)
        computeRampSeconds A.wordsRemaining rampStartNow clampedTarget remainingDuration
    else
      computeRampSeconds A.wordsRemaining A.wpm clampedTarget durationSeconds

/-- State touched by the word-advance animation loop: the current word index,
the playing flag and the `lastWordTime` anchor. -/
structure TickState where
  idx : ℕ
  playing : Bool
  lastWordTime : ℚ
deriving DecidableEq

/-- The functional updater passed to `setCurrentWordIndex` inside `tick`
(lines 219-225): at the last valid index it stops playback and wraps to 0,
otherwise it advances by one (playback keeps running). -/
def advanceWord (prev : ℕ) (wordsLen : ℕ) : ℕ × Bool :=
  if (wordsLen : ℤ) - 1 ≤ (prev : ℤ) then (0, false) else (prev + 1, true)

/-- One invocation of `tick` (lines 211-229 of the source).  Note the
source divides by the raw `currentWpmRef.current`, with no clamping. -/
def tick (currentWpm : ℚ) (wordsLen : ℕ) (now : ℚ) (s : TickState) : TickState :=
  let msPerWord := 60000 / currentWpm
  let elapsed := now - s.lastWordTime
  if msPerWord ≤ elapsed then
    if (wordsLen : ℤ) - 1 ≤ (s.idx : ℤ) then
      { idx := 0, playing := false, lastWordTime := now }
    else
      { idx := s.idx + 1, playing := s.playing, lastWordTime := now }
  else s

/-- Modelled from the spec: the spec demands that the clock clamp the
effective rate into [1, 1500] before computing `msPerWord` (sections 4.1 and
7); this variant of `tick` adds exactly that clamp, which is absent from the
source. -/
def tickSpec (currentWpm : ℚ) (wordsLen : ℕ) (now : ℚ) (s : TickState) : TickState :=
  let msPerWord := 60000 / max 1 (min 1500 currentWpm)
  let elapsed := now - s.lastWordTime
  if msPerWord ≤ elapsed then
    if (wordsLen : ℤ) - 1 ≤ (s.idx : ℤ) then
      { idx := 0, playing := false, lastWordTime := now }
    else
      { idx := s.idx + 1, playing := s.playing, lastWordTime := now }
  else s

/-- The interpolation step of the auto-scale effect (lines 258-282 of the
source): `clampedTarget = Math.max(startWpm, Math.min(1500, targetWpm))`,
`nextWpm = Math.round(startWpm + (clampedTarget - startWpm) * progress)`.
JavaScript `Math.round` rounds half up, matching Lean `round`. -/
def liveRampNextWpm (startWpm targetWpm progress : ℚ) : ℤ :=
  let clampedTarget := max startWpm (min 1500 targetWpm)
  round (startWpm + (clampedTarget - startWpm) * progress)

/-- `getORPIndex` (lines 415-422 of the source), on the length of the word. -/
def getORPIndex (word : List Char) : ℕ :=
  if word.length ≤ 1 then 0
  else if word.length ≤ 5 then 1
  else if word.length ≤ 9 then 2
  else if word.length ≤ 13 then 3
  else 4

/-- `word.slice(0, orpIndex)` from lines 424-427. -/
def beforeORP (word : List Char) : List Char :=
  word.take (getORPIndex word)

/-- `word[orpIndex] || ""` from lines 424-427: the ORP character, or the
empty string when the index is out of range. -/
def orpChar (word : List Char) : List Char :=
  match word[getORPIndex word]? with
  | some c => [c]
  | none => []

/-- `word.slice(orpIndex + 1)` from lines 424-427. -/
def afterORP (word : List Char) : List Char :=
  word.drop (getORPIndex word + 1)

/-- Guarded division: fails instead of dividing by a zero or negative
divisor.  Used to express that no division in the estimator ever runs on a
zero or negative divisor. -/
noncomputable def cdiv (x d : ℝ) : Option ℝ :=
  if 0 < d then some (x / d) else none

/-- `computeRampSeconds` with every division routed through `cdiv`: it fails
iff the division actually executed on some path has a zero or negative
divisor. -/
noncomputable def computeRampSecondsChecked
    (remainingWords startWpm endWpm seconds : ℝ) : Option ℝ :=
  let start := clampWpm startWpm
  let target := max start (clampWpm endWpm)
  if seconds ≤ 0 ∨ start = target then
    cdiv remainingWords (target / 60)
  else
    let rampWords := ((start + target) / 2) * (seconds / 60)
    if rampWords ≤ remainingWords then
      (cdiv (remainingWords - rampWords) (target / 60)).bind fun tail =>
        some (seconds + tail)
    else
      (cdiv (target - start) (2 * seconds)).bind fun a =>
        let b := start
        let c := -remainingWords * 60
        if a = 0 then
          cdiv remainingWords (b / 60)
        else
          (cdiv (-b + Real.sqrt (max (b * b - 4 * a * c) 0)) (2 * a)).bind fun t =>
            some (max 0 t)

/-- `estimateReadTimeSeconds` with every division routed through `cdiv`. -/
noncomputable def estimateReadTimeSecondsChecked (A : EstArgs) : Option ℝ :=
  if A.wordsRemaining ≤ 0 then some 0
  else
    let clampedTarget := max (clampWpm A.wpm) (clampWpm A.targetWpm)
    let durationSeconds := max 0 A.rampSeconds
    if A.autoScaleEnabled = false then
      let baseWpm := if A.isPlaying = true then clampWpm A.currentWpm else clampWpm A.wpm
      cdiv A.wordsRemaining (baseWpm / 60)
    else if A.isPlaying = true then
      let startedAt := A.rampStartTimeMs.getD A.nowMs
      (cdiv (A.nowMs - startedAt) 1000).bind fun sinceStart =>
        let elapsedSeconds := max 0 (min durationSeconds sinceStart)
        if durationSeconds ≤ elapsedSeconds then
          cdiv A.wordsRemaining (clampedTarget / 60)
        else
          let start := clampWpm A.rampStartWpm
          (if 0 < durationSeconds then cdiv elapsedSeconds durationSeconds else some 1).bind
            fun progress =>
              let rampStartNow := start + (clampedTarget - start) * progress
              let remainingDuration := max 0 (durationSeconds - elapsedSeconds)
              computeRampSecondsChecked A.wordsRemaining rampStartNow clampedTarget
                remainingDuration
    else
      computeRampSecondsChecked A.wordsRemaining A.wpm clampedTarget durationSeconds

theorem one_le_clampWpm (x : ℝ) : 1 ≤ clampWpm x :=
  le_max_left 1 _

theorem clampWpm_pos (x : ℝ) : 0 < clampWpm x :=
  lt_of_lt_of_le one_pos (one_le_clampWpm x)

theorem clampWpm_le_1500 (x : ℝ) : clampWpm x ≤ 1500 :=
  max_le (by norm_num) (min_le_left _ _)

theorem clampWpm_mono {x y : ℝ} (h : x ≤ y) : clampWpm x ≤ clampWpm y :=
  max_le_max le_rfl (min_le_min le_rfl h)

/-- Both branch guards of `computeRampSeconds` failing or the degenerate
guard holding still yield the outlast formula as long as `0 ≤ seconds`. -/
theorem crs_outlast (R s0 e0 s : ℝ) (hs : 0 ≤ s)
    (hR : ((clampWpm s0 + max (clampWpm s0) (clampWpm e0)) / 2) * (s / 60) ≤ R) :
    computeRampSeconds R s0 e0 s =
      s + (R - ((clampWpm s0 + max (clampWpm s0) (clampWpm e0)) / 2) * (s / 60)) /
        (max (clampWpm s0) (clampWpm e0) / 60) := by
  have hst : clampWpm s0 ≤ max (clampWpm s0) (clampWpm e0) := le_max_left _ _
  have htg : (1 : ℝ) ≤ max (clampWpm s0) (clampWpm e0) :=
    le_trans (one_le_clampWpm s0) hst
  have htg0 : max (clampWpm s0) (clampWpm e0) ≠ 0 := by linarith
  simp only [computeRampSeconds]
  split_ifs with h1
  · rcases h1 with h1 | h1
    · have hs0 : s = 0 := le_antisymm h1 hs
      subst hs0
      field_simp
    · have hst0 : clampWpm s0 ≠ 0 := by
        have := one_le_clampWpm s0; linarith
      rw [← h1]
      field_simp
      ring
  · rfl

/-- In the quadratic branch the leading coefficient is positive and
`computeRampSeconds` returns the clamped positive root. -/
theorem crs_quadBranch (R s0 e0 s : ℝ) (hs : 0 < s)
    (hne : clampWpm s0 ≠ max (clampWpm s0) (clampWpm e0))
    (hR : R < ((clampWpm s0 + max (clampWpm s0) (clampWpm e0)) / 2) * (s / 60)) :
    0 < (max (clampWpm s0) (clampWpm e0) - clampWpm s0) / (2 * s) ∧
    computeRampSeconds R s0 e0 s =
      max 0 ((-(clampWpm s0) +
        Real.sqrt (max (clampWpm s0 * clampWpm s0 -
          4 * ((max (clampWpm s0) (clampWpm e0) - clampWpm s0) / (2 * s)) * (-R * 60)) 0)) /
        (2 * ((max (clampWpm s0) (clampWpm e0) - clampWpm s0) / (2 * s)))) := by
  have hst : clampWpm s0 < max (clampWpm s0) (clampWpm e0) :=
    lt_of_le_of_ne (le_max_left _ _) hne
  have ha : 0 < (max (clampWpm s0) (clampWpm e0) - clampWpm s0) / (2 * s) := by
    apply div_pos (by linarith) (by linarith)
  refine ⟨ha, ?_⟩
  simp only [computeRampSeconds]
  split_ifs with h1 h2 h3
  · rcases h1 with h1 | h1
    · linarith
    · exact absurd h1 hne
  · linarith
  · exact absurd h3 (ne_of_gt ha)
  · rfl

/-- Claim C9: the estimator returns 0 whenever `wordsRemaining ≤ 0`,
for every combination of the remaining arguments. -/
theorem estimate_zero_of_no_words
    (A : EstArgs) (h : A.wordsRemaining ≤ 0) : estimateReadTimeSeconds A = 0 := by
  simp only [estimateReadTimeSeconds, if_pos h]

theorem estimate_zero_of_no_words_witness :
    estimateReadTimeSeconds
      { wordsRemaining := 0, wpm := 300, currentWpm := 300, autoScaleEnabled := true,
        targetWpm := 600, rampSeconds := 30, isPlaying := true, rampStartWpm := 300,
        rampStartTimeMs := none, nowMs := 0 } = 0 :=
  estimate_zero_of_no_words _ (by norm_num)

/-- Claim C7: advancing the cursor preserves `0 ≤ index < max 1 length`, and
advancing at the last valid index stops playback and resets the cursor to 0. -/
theorem advanceWord_invariant
    (len prev : ℕ) (_h : prev < max 1 len) :
    (advanceWord prev len).1 < max 1 len ∧
      ((prev : ℤ) = (len : ℤ) - 1 → advanceWord prev len = (0, false)) := by
  unfold advanceWord
  split_ifs with hc
  · exact ⟨lt_of_lt_of_le Nat.zero_lt_one (le_max_left 1 len), fun _ => rfl⟩
  · refine ⟨?_, fun he => absurd he.ge hc⟩
    have hlt : prev + 1 < len := by omega
    exact lt_of_lt_of_le hlt (le_max_right 1 len)

theorem advanceWord_invariant_witness :
    (advanceWord 4 5).1 < max 1 5 ∧
      ((4 : ℤ) = (5 : ℤ) - 1 → advanceWord 4 5 = (0, false)) :=
  advanceWord_invariant 5 4 (by norm_num)

/-- Claim C1 (code bug): the source `tick` divides `60000` by the raw,
unclamped rate.  With rate `-5` and zero elapsed time it advances the word
immediately (the computed `msPerWord` is negative), while the spec-mandated
clamped variant waits the full 60000 ms; the clamp the spec describes is not
in the code. -/
theorem tick_divides_by_unclamped_rate :
    tick (-5) 10 0 { idx := 0, playing := true, lastWordTime := 0 } =
      { idx := 1, playing := true, lastWordTime := 0 } ∧
    tickSpec (-5) 10 0 { idx := 0, playing := true, lastWordTime := 0 } =
      { idx := 0, playing := true, lastWordTime := 0 } ∧
    (60000 : ℚ) / (-5) < 0 ∧
    (60000 : ℚ) / max 1 (min 1500 (-5 : ℚ)) = 60000 := by
  refine ⟨?_, ?_, by norm_num, by norm_num [min_def, max_def]⟩ <;>
    norm_num [tick, tickSpec, min_def, max_def]

/-- Claim C6 (counterexample): with a non-integer captured start rate the
rounded interpolant can drop below the start rate: for `startWpm = 100.4`,
`targetWpm = 1`, progress `0` the live ramp produces `100 < 100.4`. -/
theorem liveRamp_below_start_counterexample :
    liveRampNextWpm (502 / 5) 1 0 = 100 ∧
    ((liveRampNextWpm (502 / 5) 1 0 : ℤ) : ℚ) < 502 / 5 ∧
    (0 : ℚ) ≤ 0 ∧ (0 : ℚ) ≤ 1 := by
  have h : liveRampNextWpm (502 / 5) 1 0 = 100 := by
    norm_num [liveRampNextWpm, round_eq, min_def, max_def]
  refine ⟨h, ?_, le_refl _, by norm_num⟩
  rw [h]; norm_num

/-- Claim C6 (amended): the pre-rounding clamped target is never below the
captured start rate, so for an integer captured start rate the produced rate
never drops below it; in general it never drops below the start rate by 1/2
or more (rounding is the only loss). -/
theorem liveRamp_never_decelerates :
    (∀ (s : ℤ) (t p : ℚ), 0 ≤ p → p ≤ 1 → s ≤ liveRampNextWpm (s : ℚ) t p) ∧
    (∀ s t p : ℚ, 0 ≤ p → p ≤ 1 → s - 1 / 2 < (liveRampNextWpm s t p : ℚ)) := by
  have interp_ge : ∀ s t p : ℚ, 0 ≤ p →
      s ≤ s + (max s (min 1500 t) - s) * p := by
    intro s t p hp
    have h1 : s ≤ max s (min 1500 t) := le_max_left _ _
    nlinarith
  constructor
  · intro s t p hp _
    unfold liveRampNextWpm
    rw [round_eq, Int.le_floor]
    have := interp_ge (s : ℚ) t p hp
    linarith
  · intro s t p hp _
    unfold liveRampNextWpm
    rw [round_eq]
    have h1 := Int.sub_one_lt_floor (s + (max s (min 1500 t) - s) * p + 1 / 2)
    have h2 := interp_ge s t p hp
    linarith

theorem liveRamp_never_decelerates_witness :
    ((300 : ℤ) ≤ liveRampNextWpm ((300 : ℤ) : ℚ) 600 (1 / 2)) ∧
    ((250 : ℚ) - 1 / 2 < (liveRampNextWpm 250 600 (1 / 2) : ℚ)) :=
  ⟨liveRamp_never_decelerates.1 300 600 (1 / 2) (by norm_num) (by norm_num),
   liveRamp_never_decelerates.2 250 600 (1 / 2) (by norm_num) (by norm_num)⟩

/-- Claim C10: the ORP split is lossless for every word, and for a non-empty
word the ORP index is a valid position. -/
theorem orp_split_lossless (word : List Char) :
    beforeORP word ++ orpChar word ++ afterORP word = word ∧
      (word ≠ [] → getORPIndex word < word.length) := by
  have hidx : word ≠ [] → getORPIndex word < word.length := by
    intro hne
    have hlen : 1 ≤ word.length := List.length_pos.mpr hne
    unfold getORPIndex
    split_ifs <;> omega
  refine ⟨?_, hidx⟩
  by_cases hne : word = []
  · subst hne; rfl
  · have h := hidx hne
    unfold beforeORP orpChar afterORP
    rw [List.getElem?_eq_getElem h]
    have hdrop := List.drop_eq_getElem_cons h
    calc word.take (getORPIndex word) ++ [word[getORPIndex word]] ++
          word.drop (getORPIndex word + 1)
        = word.take (getORPIndex word) ++ word.drop (getORPIndex word) := by
          rw [hdrop]; simp
      _ = word := List.take_append_drop _ _

theorem orp_split_lossless_witness :
    beforeORP ['h', 'e', 'l', 'l', 'o'] ++ orpChar ['h', 'e', 'l', 'l', 'o'] ++
        afterORP ['h', 'e', 'l', 'l', 'o'] = ['h', 'e', 'l', 'l', 'o'] ∧
      getORPIndex ['h', 'e', 'l', 'l', 'o'] < (['h', 'e', 'l', 'l', 'o'] : List Char).length :=
  ⟨(orp_split_lossless _).1, (orp_split_lossless _).2 (by decide)⟩

/-- Claim C4: with the ramp disabled the estimate is constant-rate division
at the clamped base rate (`currentWpm` when playing, `wpm` otherwise), and
120 words at 300 wpm give exactly 24 seconds in either play state. -/
theorem estimate_constant_rate :
    (∀ A : EstArgs, A.autoScaleEnabled = false → 0 < A.wordsRemaining →
        estimateReadTimeSeconds A =
          A.wordsRemaining / (clampWpm (if A.isPlaying = true then A.currentWpm else A.wpm) / 60)) ∧
    estimateReadTimeSeconds
      { wordsRemaining := 120, wpm := 300, currentWpm := 300, autoScaleEnabled := false,
        targetWpm := 600, rampSeconds := 30, isPlaying := true, rampStartWpm := 300,
        rampStartTimeMs := none, nowMs := 0 } = 24 ∧
    estimateReadTimeSeconds
      { wordsRemaining := 120, wpm := 300, currentWpm := 300, autoScaleEnabled := false,
        targetWpm := 600, rampSeconds := 30, isPlaying := false, rampStartWpm := 300,
        rampStartTimeMs := none, nowMs := 0 } = 24 := by
  have main : ∀ A : EstArgs, A.autoScaleEnabled = false → 0 < A.wordsRemaining →
      estimateReadTimeSeconds A =
        A.wordsRemaining / (clampWpm (if A.isPlaying = true then A.currentWpm else A.wpm) / 60) := by
    intro A hAS hW
    simp only [estimateReadTimeSeconds, if_neg (not_le.mpr hW), hAS, if_pos rfl]
    by_cases hp : A.isPlaying = true <;> simp [hp]
  refine ⟨main, ?_, ?_⟩ <;>
    · rw [main _ rfl (by norm_num)]
      simp only [clampWpm]
      norm_num

theorem estimate_constant_rate_witness :
    estimateReadTimeSeconds
      { wordsRemaining := 120, wpm := 300, currentWpm := 300, autoScaleEnabled := false,
        targetWpm := 600, rampSeconds := 30, isPlaying := true, rampStartWpm := 300,
        rampStartTimeMs := none, nowMs := 0 } =
      (120 : ℝ) / (clampWpm (if true = true then (300 : ℝ) else 300) / 60) :=
  estimate_constant_rate.1 _ rfl (by norm_num)

/-- Claim C3: whenever the remaining words reach at least the trapezoid word
count of the ramp, `computeRampSeconds` equals
`seconds + (remaining - rampWords) / (target / 60)`;
for 1000 words, 300 to 600 wpm over 30 s this is exactly 107.5 s. -/
theorem estimate_outlast_branch :
    (∀ R s0 e0 s : ℝ, 0 ≤ s →
        ((clampWpm s0 + max (clampWpm s0) (clampWpm e0)) / 2) * (s / 60) ≤ R →
        computeRampSeconds R s0 e0 s =
          s + (R - ((clampWpm s0 + max (clampWpm s0) (clampWpm e0)) / 2) * (s / 60)) /
            (max (clampWpm s0) (clampWpm e0) / 60)) ∧
    computeRampSeconds 1000 300 600 30 = 107.5 := by
  refine ⟨crs_outlast, ?_⟩
  have h300 : clampWpm (300 : ℝ) = 300 := by norm_num [clampWpm, min_def, max_def]
  have h600 : clampWpm (600 : ℝ) = 600 := by norm_num [clampWpm, min_def, max_def]
  have hmax : max (clampWpm (300 : ℝ)) (clampWpm (600 : ℝ)) = 600 := by
    rw [h300, h600]; norm_num [max_def]
  have hRW : ((clampWpm (300 : ℝ) + max (clampWpm 300) (clampWpm 600)) / 2) * (30 / 60)
      ≤ 1000 := by
    rw [hmax, h300]; norm_num
  rw [crs_outlast 1000 300 600 30 (by norm_num) hRW, hmax, h300]
  norm_num

theorem estimate_outlast_branch_witness :
    computeRampSeconds 1000 300 600 30 =
      30 + (1000 - ((clampWpm 300 + max (clampWpm 300) (clampWpm 600)) / 2) * (30 / 60)) /
        (max (clampWpm 300) (clampWpm 600) / 60) :=
  estimate_outlast_branch.1 1000 300 600 30 (by norm_num)
    (by norm_num [clampWpm, min_def, max_def])

/-- The quadratic branch at the concrete input of the spec example: the
returned value is exactly the positive root (-60 + sqrt 111600) / 9. -/
theorem crs_quad_concrete :
    computeRampSeconds 100 60 600 60 = (-60 + Real.sqrt 111600) / 9 := by
  have h60 : clampWpm (60 : ℝ) = 60 := by norm_num [clampWpm, min_def, max_def]
  have h600 : clampWpm (600 : ℝ) = 600 := by norm_num [clampWpm, min_def, max_def]
  have hmax : max (clampWpm (60 : ℝ)) (clampWpm (600 : ℝ)) = 600 := by
    rw [h60, h600]; norm_num [max_def]
  obtain ⟨-, heq⟩ := crs_quadBranch 100 60 600 60 (by norm_num)
    (by rw [hmax, h60]; norm_num) (by rw [hmax, h60]; norm_num)
  rw [heq, hmax, h60]
  have hmax2 : max ((60 : ℝ) * 60 - 4 * (((600 : ℝ) - 60) / (2 * 60)) * (-100 * 60)) 0
      = 111600 := by
    rw [show (60 : ℝ) * 60 - 4 * (((600 : ℝ) - 60) / (2 * 60)) * (-100 * 60) = 111600 by
      norm_num]
    norm_num [max_def]
  rw [hmax2]
  have hden : 2 * (((600 : ℝ) - 60) / (2 * 60)) = 9 := by norm_num
  rw [hden]
  have hsqrt : (60 : ℝ) < Real.sqrt 111600 :=
    (Real.lt_sqrt (by norm_num)).mpr (by norm_num)
  have hnum : (0 : ℝ) ≤ (-60 + Real.sqrt 111600) / 9 := by
    apply div_nonneg _ (by norm_num)
    linarith
  rw [max_eq_right hnum]

/-- Claim C2 (counterexample): the value of the quadratic branch at the
spec example (100 words, 60 to 600 wpm over 60 s) is about 30.4517 s, which
is not within 1e-6 relative tolerance of the 30.46 s stated by the spec. -/
theorem estimate_quadratic_not_within_tolerance :
    30.46 * (1 / 1000000) < |computeRampSeconds 100 60 600 60 - 30.46| := by
  rw [crs_quad_concrete]
  have hub : Real.sqrt 111600 < 334.0662 :=
    (Real.sqrt_lt' (by norm_num)).mpr (by norm_num)
  have hone : (-60 + Real.sqrt 111600) / 9 < 30.4518 := by
    rw [div_lt_iff (by norm_num : (0 : ℝ) < 9)]
    linarith
  have hneg : (-60 + Real.sqrt 111600) / 9 - 30.46 < 0 := by linarith
  rw [abs_of_neg hneg]
  linarith

/-- Claim C2 (amended): in the quadratic branch the leading coefficient
`a = (target - start) / (2 * duration)` is positive (so the `a == 0`
fallback to division by `b` is never taken there) and the estimator returns
the positive root `max 0 ((-b + sqrt (max (b*b - 4*a*c) 0)) / (2*a))`; at
the spec example the result is exactly `(-60 + sqrt 111600) / 9`, which lies
strictly between 30.4516 and 30.4518 (about 30.4517, not 30.46). -/
theorem estimate_quadratic_branch :
    (∀ R s0 e0 s : ℝ, 0 < s →
        clampWpm s0 ≠ max (clampWpm s0) (clampWpm e0) →
        R < ((clampWpm s0 + max (clampWpm s0) (clampWpm e0)) / 2) * (s / 60) →
        0 < (max (clampWpm s0) (clampWpm e0) - clampWpm s0) / (2 * s) ∧
        computeRampSeconds R s0 e0 s =
          max 0 ((-(clampWpm s0) +
            Real.sqrt (max (clampWpm s0 * clampWpm s0 -
              4 * ((max (clampWpm s0) (clampWpm e0) - clampWpm s0) / (2 * s)) * (-R * 60)) 0)) /
            (2 * ((max (clampWpm s0) (clampWpm e0) - clampWpm s0) / (2 * s))))) ∧
    computeRampSeconds 100 60 600 60 = (-60 + Real.sqrt 111600) / 9 ∧
    30.4516 < computeRampSeconds 100 60 600 60 ∧
    computeRampSeconds 100 60 600 60 < 30.4518 := by
  refine ⟨crs_quadBranch, crs_quad_concrete, ?_, ?_⟩
  · rw [crs_quad_concrete]
    have hlb : (334.0644 : ℝ) < Real.sqrt 111600 :=
      (Real.lt_sqrt (by norm_num)).mpr (by norm_num)
    rw [lt_div_iff (by norm_num : (0 : ℝ) < 9)]
    linarith
  · rw [crs_quad_concrete]
    have hub : Real.sqrt 111600 < 334.0662 :=
      (Real.sqrt_lt' (by norm_num)).mpr (by norm_num)
    rw [div_lt_iff (by norm_num : (0 : ℝ) < 9)]
    linarith

theorem estimate_quadratic_branch_witness :
    0 < (max (clampWpm 60) (clampWpm 600) - clampWpm 60) / (2 * 60) ∧
    computeRampSeconds 100 60 600 60 =
      max 0 ((-(clampWpm 60) +
        Real.sqrt (max (clampWpm 60 * clampWpm 60 -
          4 * ((max (clampWpm 60) (clampWpm 600) - clampWpm 60) / (2 * 60)) * (-100 * 60)) 0)) /
        (2 * ((max (clampWpm 60) (clampWpm 600) - clampWpm 60) / (2 * 60)))) :=
  estimate_quadratic_branch.1 100 60 600 60 (by norm_num)
    (by norm_num [clampWpm, min_def, max_def])
    (by norm_num [clampWpm, min_def, max_def])

theorem cdiv_of_pos {x d : ℝ} (h : 0 < d) : cdiv x d = some (x / d) :=
  if_pos h

theorem crsChecked_eq (R s0 e0 s : ℝ) :
    computeRampSecondsChecked R s0 e0 s = some (computeRampSeconds R s0 e0 s) := by
  have hst1 : (1 : ℝ) ≤ clampWpm s0 := one_le_clampWpm s0
  have htg1 : (1 : ℝ) ≤ max (clampWpm s0) (clampWpm e0) :=
    le_trans hst1 (le_max_left _ _)
  have htgdiv : (0 : ℝ) < max (clampWpm s0) (clampWpm e0) / 60 :=
    div_pos (by linarith) (by norm_num)
  have hstdiv : (0 : ℝ) < clampWpm s0 / 60 := div_pos (by linarith) (by norm_num)
  simp only [computeRampSecondsChecked, computeRampSeconds]
  split_ifs with hc1 hc2 ha
  · exact cdiv_of_pos htgdiv
  · rw [cdiv_of_pos htgdiv]
    rfl
  · push_neg at hc1
    have h2s : (0 : ℝ) < 2 * s := by linarith [hc1.1]
    rw [cdiv_of_pos h2s, Option.some_bind', if_pos ha]
    exact cdiv_of_pos hstdiv
  · push_neg at hc1
    have h2s : (0 : ℝ) < 2 * s := by linarith [hc1.1]
    have hann : 0 ≤ (max (clampWpm s0) (clampWpm e0) - clampWpm s0) / (2 * s) :=
      div_nonneg (by linarith [le_max_left (clampWpm s0) (clampWpm e0)]) (by linarith)
    have hapos : 0 < 2 * ((max (clampWpm s0) (clampWpm e0) - clampWpm s0) / (2 * s)) := by
      rcases lt_or_eq_of_le hann with h | h
      · linarith
      · exact absurd h.symm ha
    rw [cdiv_of_pos h2s, Option.some_bind', if_neg ha, cdiv_of_pos hapos, Option.some_bind']

/-- Claim C5: on every input, routing every division of the estimator
through `cdiv` (which fails on a zero or negative divisor) succeeds and
returns exactly the unchecked value: every divisor on every executed path is
positive, the rate divisors because they are clamped into [1, 1500] first. -/
theorem estimate_no_division_hazard (A : EstArgs) :
    estimateReadTimeSecondsChecked A = some (estimateReadTimeSeconds A) := by
  by_cases h1 : A.wordsRemaining ≤ 0
  · simp only [estimateReadTimeSecondsChecked, estimateReadTimeSeconds, if_pos h1]
  · simp only [estimateReadTimeSecondsChecked, estimateReadTimeSeconds, if_neg h1]
    by_cases h2 : A.autoScaleEnabled = false
    · rw [if_pos h2, if_pos h2]
      have hbase : (0 : ℝ) <
          (if A.isPlaying = true then clampWpm A.currentWpm else clampWpm A.wpm) / 60 := by
        apply div_pos _ (by norm_num)
        split_ifs
        · exact clampWpm_pos _
        · exact clampWpm_pos _
      exact cdiv_of_pos hbase
    · rw [if_neg h2, if_neg h2]
      by_cases h3 : A.isPlaying = true
      · rw [if_pos h3, if_pos h3]
        rw [cdiv_of_pos (show (0 : ℝ) < 1000 by norm_num), Option.some_bind']
        set D := max 0 A.rampSeconds with hD
        set E := max 0 (min D ((A.nowMs - Option.getD A.rampStartTimeMs A.nowMs) / 1000))
          with hE
        by_cases h4 : D ≤ E
        · rw [if_pos h4, if_pos h4]
          have hct : (0 : ℝ) < max (clampWpm A.wpm) (clampWpm A.targetWpm) / 60 :=
            div_pos (lt_of_lt_of_le (clampWpm_pos A.wpm) (le_max_left _ _)) (by norm_num)
          exact cdiv_of_pos hct
        · rw [if_neg h4, if_neg h4]
          have hE0 : 0 ≤ E := le_max_left 0 _
          have hDpos : 0 < D := lt_of_le_of_lt hE0 (not_le.mp h4)
          rw [if_pos hDpos, if_pos hDpos, cdiv_of_pos hDpos, Option.some_bind']
          exact crsChecked_eq _ _ _ _
      · rw [if_neg h3, if_neg h3]
        exact crsChecked_eq _ _ _ _

theorem crs_deg (R s0 e0 s : ℝ)
    (h : s ≤ 0 ∨ clampWpm s0 = max (clampWpm s0) (clampWpm e0)) :
    computeRampSeconds R s0 e0 s = R / (max (clampWpm s0) (clampWpm e0) / 60) := by
  simp only [computeRampSeconds]
  rw [if_pos h]

theorem crs_nonneg (R s0 e0 s : ℝ) (hR : 0 ≤ R) :
    0 ≤ computeRampSeconds R s0 e0 s := by
  have hst1 : (1 : ℝ) ≤ clampWpm s0 := one_le_clampWpm s0
  have htg1 : (1 : ℝ) ≤ max (clampWpm s0) (clampWpm e0) :=
    le_trans hst1 (le_max_left _ _)
  simp only [computeRampSeconds]
  split_ifs with h1 h2 h3
  · exact div_nonneg hR (by linarith)
  · push_neg at h1
    exact add_nonneg h1.1.le (div_nonneg (sub_nonneg.mpr h2) (by linarith))
  · exact div_nonneg hR (by linarith)
  · exact le_max_left 0 _

/-- Strict growth of the ramp word-count polynomial forces its inverse to be
monotone: if the polynomial values compare, so do the times. -/
theorem qmono {aa bb t1 t2 : ℝ} (ha : 0 ≤ aa) (hb : 0 < bb)
    (h1 : 0 ≤ t1) (h2 : 0 ≤ t2)
    (hq : aa * t1 ^ 2 + bb * t1 ≤ aa * t2 ^ 2 + bb * t2) : t1 ≤ t2 := by
  by_contra hcon
  push_neg at hcon
  nlinarith [mul_nonneg ha (mul_nonneg (sub_pos.mpr hcon).le (show (0 : ℝ) ≤ t1 + t2 by
    linarith)), mul_pos hb (sub_pos.mpr hcon)]

/-- In the quadratic branch, `computeRampSeconds` is the unique time in
`(0, seconds)` at which the ramp has consumed exactly the remaining words:
it satisfies `a * t^2 + b * t = 60 * remainingWords`. -/
theorem crs_quad_root (R s0 e0 s : ℝ) (hs : 0 < s)
    (hne : clampWpm s0 ≠ max (clampWpm s0) (clampWpm e0))
    (hR : R < ((clampWpm s0 + max (clampWpm s0) (clampWpm e0)) / 2) * (s / 60))
    (hR0 : 0 < R) :
    ∃ t, computeRampSeconds R s0 e0 s = t ∧
      ((max (clampWpm s0) (clampWpm e0) - clampWpm s0) / (2 * s)) * t ^ 2 +
        clampWpm s0 * t = 60 * R ∧ 0 < t ∧ t < s := by
  obtain ⟨ha, heq⟩ := crs_quadBranch R s0 e0 s hs hne hR
  set st := clampWpm s0 with hstdef
  set tg := max (clampWpm s0) (clampWpm e0) with htgdef
  set aa := (tg - st) / (2 * s) with haadef
  have hst1 : (1 : ℝ) ≤ st := one_le_clampWpm s0
  have hsttg : st < tg := lt_of_le_of_ne (le_max_left _ _) hne
  have hD : (0 : ℝ) < st * st - 4 * aa * (-R * 60) := by
    nlinarith [mul_pos ha hR0]
  have hmaxD : max (st * st - 4 * aa * (-R * 60)) 0 = st * st - 4 * aa * (-R * 60) :=
    max_eq_left hD.le
  rw [hmaxD] at heq
  set d := Real.sqrt (st * st - 4 * aa * (-R * 60)) with hddef
  have hd2 : d ^ 2 = st * st - 4 * aa * (-R * 60) := Real.sq_sqrt hD.le
  have hdnn : 0 ≤ d := Real.sqrt_nonneg _
  have hstd : st < d := by
    by_contra hc
    push_neg at hc
    nlinarith [mul_self_le_mul_self hdnn hc, mul_pos ha hR0]
  set t0 := (-st + d) / (2 * aa) with ht0def
  have haa0 : aa ≠ 0 := ne_of_gt ha
  have ht0pos : 0 < t0 := div_pos (by linarith) (by linarith)
  have hq : aa * t0 ^ 2 + st * t0 = 60 * R := by
    rw [ht0def]
    field_simp
    nlinarith [hd2]
  have hqs : aa * s ^ 2 + st * s = s * (st + tg) / 2 := by
    rw [haadef]
    field_simp
    ring
  have hts : t0 < s := by
    by_contra hc
    push_neg at hc
    have hmono : aa * s ^ 2 + st * s ≤ aa * t0 ^ 2 + st * t0 := by
      nlinarith [mul_nonneg ha.le (mul_nonneg (sub_nonneg.mpr hc) (show (0 : ℝ) ≤ s + t0 by
        linarith)), mul_le_mul_of_nonneg_left hc (le_of_lt (lt_of_lt_of_le one_pos hst1))]
    nlinarith
  exact ⟨t0, heq.trans (max_eq_right ht0pos.le), hq, ht0pos, hts⟩

theorem div_rate_mono {x a b : ℝ} (hx : 0 ≤ x) (ha : 0 < a) (hab : a ≤ b) :
    x / (b / 60) ≤ x / (a / 60) := by
  have hb : 0 < b := lt_of_lt_of_le ha hab
  rw [div_le_div_iff (by linarith) (by linarith)]
  nlinarith

/-- The ramp time is at least the time needed at the (fastest) target rate:
the rate never exceeds the clamped target. -/
theorem crs_ge_div_target (R s0 e0 s : ℝ) (hR : 0 < R) :
    R / (max (clampWpm s0) (clampWpm e0) / 60) ≤ computeRampSeconds R s0 e0 s := by
  have hst1 : (1 : ℝ) ≤ clampWpm s0 := one_le_clampWpm s0
  have hsttg : clampWpm s0 ≤ max (clampWpm s0) (clampWpm e0) := le_max_left _ _
  have htg1 : (1 : ℝ) ≤ max (clampWpm s0) (clampWpm e0) := le_trans hst1 hsttg
  set st := clampWpm s0 with hstdef
  set tg := max (clampWpm s0) (clampWpm e0) with htgdef
  by_cases hdeg : s ≤ 0 ∨ st = tg
  · rw [crs_deg R s0 e0 s hdeg]
  · push_neg at hdeg
    obtain ⟨hs0, hne⟩ := hdeg
    by_cases hrw : ((st + tg) / 2) * (s / 60) ≤ R
    · rw [crs_outlast R s0 e0 s hs0.le hrw]
      have hX : (0 : ℝ) < tg / 60 := by linarith
      have hsplit : (R - ((st + tg) / 2) * (s / 60)) / (tg / 60) +
          ((st + tg) / 2) * (s / 60) / (tg / 60) = R / (tg / 60) := by
        rw [div_add_div_same]
        ring_nf
      have hrws : ((st + tg) / 2) * (s / 60) / (tg / 60) ≤ s := by
        rw [div_le_iff hX]
        nlinarith
      linarith
    · push_neg at hrw
      obtain ⟨t, heq, hq, ht0, hts⟩ := crs_quad_root R s0 e0 s hs0 hne hrw hR
      rw [heq, div_le_iff (show (0 : ℝ) < tg / 60 by linarith)]
      have haann : 0 ≤ (tg - st) / (2 * s) := div_nonneg (by linarith) (by linarith)
      have haas : (tg - st) / (2 * s) * s = (tg - st) / 2 := by
        field_simp
        ring
      have hchain : (tg - st) / (2 * s) * t * t ≤ (tg - st) / (2 * s) * s * t :=
        mul_le_mul_of_nonneg_right (mul_le_mul_of_nonneg_left hts.le haann) ht0.le
      nlinarith [hq, mul_nonneg (sub_nonneg.mpr hsttg) ht0.le]

/-- The ramp time is at most the time needed at the (slowest) start rate:
the rate never drops below the clamped start. -/
theorem crs_le_div_start (R s0 e0 s : ℝ) (hR : 0 < R) :
    computeRampSeconds R s0 e0 s ≤ R / (clampWpm s0 / 60) := by
  have hst1 : (1 : ℝ) ≤ clampWpm s0 := one_le_clampWpm s0
  have hsttg : clampWpm s0 ≤ max (clampWpm s0) (clampWpm e0) := le_max_left _ _
  have htg1 : (1 : ℝ) ≤ max (clampWpm s0) (clampWpm e0) := le_trans hst1 hsttg
  set st := clampWpm s0 with hstdef
  set tg := max (clampWpm s0) (clampWpm e0) with htgdef
  by_cases hdeg : s ≤ 0 ∨ st = tg
  · rw [crs_deg R s0 e0 s hdeg]
    exact div_rate_mono hR.le (by linarith) hsttg
  · push_neg at hdeg
    obtain ⟨hs0, hne⟩ := hdeg
    by_cases hrw : ((st + tg) / 2) * (s / 60) ≤ R
    · rw [crs_outlast R s0 e0 s hs0.le hrw]
      have h1 : (R - ((st + tg) / 2) * (s / 60)) / (tg / 60) ≤
          (R - ((st + tg) / 2) * (s / 60)) / (st / 60) :=
        div_rate_mono (sub_nonneg.mpr hrw) (by linarith) hsttg
      have h2 : s ≤ ((st + tg) / 2) * (s / 60) / (st / 60) := by
        rw [le_div_iff (show (0 : ℝ) < st / 60 by linarith)]
        nlinarith
      have h3 : ((st + tg) / 2) * (s / 60) / (st / 60) +
          (R - ((st + tg) / 2) * (s / 60)) / (st / 60) = R / (st / 60) := by
        rw [div_add_div_same]
        ring_nf
      linarith
    · push_neg at hrw
      obtain ⟨t, heq, hq, ht0, hts⟩ := crs_quad_root R s0 e0 s hs0 hne hrw hR
      rw [heq, le_div_iff (show (0 : ℝ) < st / 60 by linarith)]
      have haann : 0 ≤ (tg - st) / (2 * s) := div_nonneg (by linarith) (by linarith)
      nlinarith [hq, mul_nonneg haann (sq_nonneg t)]

/-- Raising the start rate (end rate fixed) never lengthens the ramp time. -/
theorem crs_mono_start (R s0 s0' e0 s : ℝ) (hR : 0 < R) (h : s0 ≤ s0') :
    computeRampSeconds R s0' e0 s ≤ computeRampSeconds R s0 e0 s := by
  have hst1 : (1 : ℝ) ≤ clampWpm s0 := one_le_clampWpm s0
  have hstm : clampWpm s0 ≤ clampWpm s0' := clampWpm_mono h
  have htgm : max (clampWpm s0) (clampWpm e0) ≤ max (clampWpm s0') (clampWpm e0) :=
    max_le_max hstm le_rfl
  have htg1 : (1 : ℝ) ≤ max (clampWpm s0) (clampWpm e0) :=
    le_trans hst1 (le_max_left _ _)
  by_cases hs : s ≤ 0
  · rw [crs_deg R s0 e0 s (Or.inl hs), crs_deg R s0' e0 s (Or.inl hs)]
    exact div_rate_mono hR.le (by linarith) htgm
  · push_neg at hs
    by_cases hdeg' : clampWpm s0' = max (clampWpm s0') (clampWpm e0)
    · rw [crs_deg R s0' e0 s (Or.inr hdeg')]
      calc R / (max (clampWpm s0') (clampWpm e0) / 60)
          ≤ R / (max (clampWpm s0) (clampWpm e0) / 60) :=
            div_rate_mono hR.le (by linarith) htgm
        _ ≤ computeRampSeconds R s0 e0 s := crs_ge_div_target R s0 e0 s hR
    · have hlt' : clampWpm s0' < max (clampWpm s0') (clampWpm e0) :=
        lt_of_le_of_ne (le_max_left _ _) hdeg'
      have hce' : clampWpm s0' < clampWpm e0 := by
        rcases le_or_lt (clampWpm e0) (clampWpm s0') with hle | hlt2
        · rw [max_eq_left hle] at hlt'
          exact absurd hlt' (lt_irrefl _)
        · exact hlt2
      have htg'eq : max (clampWpm s0') (clampWpm e0) = clampWpm e0 := max_eq_right hce'.le
      have hce : clampWpm s0 < clampWpm e0 := lt_of_le_of_lt hstm hce'
      have htgeq : max (clampWpm s0) (clampWpm e0) = clampWpm e0 := max_eq_right hce.le
      have hne : clampWpm s0 ≠ max (clampWpm s0) (clampWpm e0) := by
        rw [htgeq]
        exact ne_of_lt hce
      by_cases hrw' : ((clampWpm s0' + max (clampWpm s0') (clampWpm e0)) / 2) * (s / 60) ≤ R
      · have hrw : ((clampWpm s0 + max (clampWpm s0) (clampWpm e0)) / 2) * (s / 60) ≤ R := by
          nlinarith [mul_nonneg (show (0 : ℝ) ≤ clampWpm s0' +
            max (clampWpm s0') (clampWpm e0) - clampWpm s0 - max (clampWpm s0) (clampWpm e0)
            by linarith) hs.le]
        rw [crs_outlast R s0 e0 s hs.le hrw, crs_outlast R s0' e0 s hs.le hrw',
          htgeq, htg'eq]
        have hden : (0 : ℝ) < clampWpm e0 / 60 := by
          linarith [one_le_clampWpm e0]
        have hnum : R - ((clampWpm s0' + clampWpm e0) / 2) * (s / 60) ≤
            R - ((clampWpm s0 + clampWpm e0) / 2) * (s / 60) := by
          nlinarith [mul_nonneg (sub_nonneg.mpr hstm) hs.le]
        linarith [(div_le_div_right hden).mpr hnum]
      · push_neg at hrw'
        obtain ⟨t', heq', hq', ht0', hts'⟩ := crs_quad_root R s0' e0 s hs hdeg' hrw' hR
        rw [heq']
        by_cases hrw : ((clampWpm s0 + max (clampWpm s0) (clampWpm e0)) / 2) * (s / 60) ≤ R
        · rw [crs_outlast R s0 e0 s hs.le hrw]
          have hnn : 0 ≤ (R - ((clampWpm s0 + max (clampWpm s0) (clampWpm e0)) / 2) * (s / 60)) /
              (max (clampWpm s0) (clampWpm e0) / 60) :=
            div_nonneg (by linarith) (by linarith)
          linarith
        · push_neg at hrw
          obtain ⟨t, heq, hq, ht0, hts⟩ := crs_quad_root R s0 e0 s hs hne hrw hR
          rw [heq]
          rw [htgeq] at hq
          rw [htg'eq] at hq'
          have hu : (0 : ℝ) ≤ (clampWpm s0' - clampWpm s0) / (2 * s) :=
            div_nonneg (by linarith) (by linarith)
          have hkey : ((clampWpm s0' - clampWpm s0) / (2 * s)) * (2 * s) * t' =
              (clampWpm s0' - clampWpm s0) * t' := by
            have h2s : (2 : ℝ) * s ≠ 0 := by linarith
            field_simp
          have hsplit : (clampWpm e0 - clampWpm s0) / (2 * s) =
              (clampWpm e0 - clampWpm s0') / (2 * s) +
                (clampWpm s0' - clampWpm s0) / (2 * s) := by
            ring
          have hle : ((clampWpm e0 - clampWpm s0) / (2 * s)) * t' ^ 2 + clampWpm s0 * t' ≤
              ((clampWpm e0 - clampWpm s0) / (2 * s)) * t ^ 2 + clampWpm s0 * t := by
            rw [hq, ← hq', hsplit]
            nlinarith [mul_nonneg (mul_nonneg hu ht0'.le)
              (show (0 : ℝ) ≤ 2 * s - t' by linarith), hkey]
          exact qmono (div_nonneg (by linarith) (by linarith)) (by linarith)
            ht0'.le ht0.le hle

/-- Raising the target rate (start rate fixed) never lengthens the ramp
time. -/
theorem crs_mono_end (R s0 e0 e0' s : ℝ) (hR : 0 < R) (h : e0 ≤ e0') :
    computeRampSeconds R s0 e0' s ≤ computeRampSeconds R s0 e0 s := by
  have hst1 : (1 : ℝ) ≤ clampWpm s0 := one_le_clampWpm s0
  have hcem : clampWpm e0 ≤ clampWpm e0' := clampWpm_mono h
  have htgm : max (clampWpm s0) (clampWpm e0) ≤ max (clampWpm s0) (clampWpm e0') :=
    max_le_max le_rfl hcem
  have htg1 : (1 : ℝ) ≤ max (clampWpm s0) (clampWpm e0) :=
    le_trans hst1 (le_max_left _ _)
  by_cases hs : s ≤ 0
  · rw [crs_deg R s0 e0 s (Or.inl hs), crs_deg R s0 e0' s (Or.inl hs)]
    exact div_rate_mono hR.le (by linarith) htgm
  · push_neg at hs
    by_cases hdeg : clampWpm s0 = max (clampWpm s0) (clampWpm e0)
    · rw [crs_deg R s0 e0 s (Or.inr hdeg)]
      calc computeRampSeconds R s0 e0' s
          ≤ R / (clampWpm s0 / 60) := crs_le_div_start R s0 e0' s hR
        _ = R / (max (clampWpm s0) (clampWpm e0) / 60) := by rw [← hdeg]
    · have hlt : clampWpm s0 < max (clampWpm s0) (clampWpm e0) :=
        lt_of_le_of_ne (le_max_left _ _) hdeg
      have hce : clampWpm s0 < clampWpm e0 := by
        rcases le_or_lt (clampWpm e0) (clampWpm s0) with hle | hlt2
        · rw [max_eq_left hle] at hlt
          exact absurd hlt (lt_irrefl _)
        · exact hlt2
      have hce' : clampWpm s0 < clampWpm e0' := lt_of_lt_of_le hce hcem
      have htgeq : max (clampWpm s0) (clampWpm e0) = clampWpm e0 := max_eq_right hce.le
      have htg'eq : max (clampWpm s0) (clampWpm e0') = clampWpm e0' := max_eq_right hce'.le
      have hne' : clampWpm s0 ≠ max (clampWpm s0) (clampWpm e0') := by
        rw [htg'eq]
        exact ne_of_lt hce'
      by_cases hrw' : ((clampWpm s0 + max (clampWpm s0) (clampWpm e0')) / 2) * (s / 60) ≤ R
      · have hrw : ((clampWpm s0 + max (clampWpm s0) (clampWpm e0)) / 2) * (s / 60) ≤ R := by
          nlinarith [mul_nonneg (show (0 : ℝ) ≤ max (clampWpm s0) (clampWpm e0') -
            max (clampWpm s0) (clampWpm e0) by linarith) hs.le]
        rw [crs_outlast R s0 e0 s hs.le hrw, crs_outlast R s0 e0' s hs.le hrw']
        have hA : (R - ((clampWpm s0 + max (clampWpm s0) (clampWpm e0')) / 2) * (s / 60)) /
              (max (clampWpm s0) (clampWpm e0') / 60) ≤
            (R - ((clampWpm s0 + max (clampWpm s0) (clampWpm e0')) / 2) * (s / 60)) /
              (max (clampWpm s0) (clampWpm e0) / 60) :=
          div_rate_mono (by linarith) (by linarith) htgm
        have hB : (R - ((clampWpm s0 + max (clampWpm s0) (clampWpm e0')) / 2) * (s / 60)) /
              (max (clampWpm s0) (clampWpm e0) / 60) ≤
            (R - ((clampWpm s0 + max (clampWpm s0) (clampWpm e0)) / 2) * (s / 60)) /
              (max (clampWpm s0) (clampWpm e0) / 60) := by
          apply (div_le_div_right (show (0 : ℝ) < max (clampWpm s0) (clampWpm e0) / 60 by
            linarith)).mpr
          nlinarith [mul_nonneg (show (0 : ℝ) ≤ max (clampWpm s0) (clampWpm e0') -
            max (clampWpm s0) (clampWpm e0) by linarith) hs.le]
        linarith
      · push_neg at hrw'
        obtain ⟨t', heq', hq', ht0', hts'⟩ := crs_quad_root R s0 e0' s hs hne' hrw' hR
        rw [heq']
        by_cases hrw : ((clampWpm s0 + max (clampWpm s0) (clampWpm e0)) / 2) * (s / 60) ≤ R
        · rw [crs_outlast R s0 e0 s hs.le hrw]
          have hnn : 0 ≤ (R - ((clampWpm s0 + max (clampWpm s0) (clampWpm e0)) / 2) * (s / 60)) /
              (max (clampWpm s0) (clampWpm e0) / 60) :=
            div_nonneg (by linarith) (by linarith)
          linarith
        · push_neg at hrw
          obtain ⟨t, heq, hq, ht0, hts⟩ := crs_quad_root R s0 e0 s hs hdeg hrw hR
          rw [heq]
          rw [htgeq] at hq
          rw [htg'eq] at hq'
          have hcoef : (clampWpm e0 - clampWpm s0) / (2 * s) ≤
              (clampWpm e0' - clampWpm s0) / (2 * s) :=
            (div_le_div_right (by linarith : (0 : ℝ) < 2 * s)).mpr (by linarith)
          have hle : ((clampWpm e0 - clampWpm s0) / (2 * s)) * t' ^ 2 + clampWpm s0 * t' ≤
              ((clampWpm e0 - clampWpm s0) / (2 * s)) * t ^ 2 + clampWpm s0 * t := by
            rw [hq, ← hq']
            nlinarith [mul_le_mul_of_nonneg_right hcoef (sq_nonneg t')]
          exact qmono (div_nonneg (by linarith) (by linarith)) (by linarith)
            ht0'.le ht0.le hle

/-- More remaining words never shorten the ramp time. -/
theorem crs_mono_words (R1 R2 s0 e0 s : ℝ) (hR1 : 0 < R1) (h : R1 ≤ R2) :
    computeRampSeconds R1 s0 e0 s ≤ computeRampSeconds R2 s0 e0 s := by
  have hst1 : (1 : ℝ) ≤ clampWpm s0 := one_le_clampWpm s0
  have htg1 : (1 : ℝ) ≤ max (clampWpm s0) (clampWpm e0) :=
    le_trans hst1 (le_max_left _ _)
  by_cases hdeg : s ≤ 0 ∨ clampWpm s0 = max (clampWpm s0) (clampWpm e0)
  · rw [crs_deg R1 s0 e0 s hdeg, crs_deg R2 s0 e0 s hdeg]
    exact (div_le_div_right (by linarith)).mpr h
  · push_neg at hdeg
    obtain ⟨hs, hne⟩ := hdeg
    by_cases hrw1 : ((clampWpm s0 + max (clampWpm s0) (clampWpm e0)) / 2) * (s / 60) ≤ R1
    · have hrw2 : ((clampWpm s0 + max (clampWpm s0) (clampWpm e0)) / 2) * (s / 60) ≤ R2 :=
        le_trans hrw1 h
      rw [crs_outlast R1 s0 e0 s hs.le hrw1, crs_outlast R2 s0 e0 s hs.le hrw2]
      have := (div_le_div_right (show (0 : ℝ) < max (clampWpm s0) (clampWpm e0) / 60 by
        linarith)).mpr (show R1 - ((clampWpm s0 + max (clampWpm s0) (clampWpm e0)) / 2) *
          (s / 60) ≤ R2 - ((clampWpm s0 + max (clampWpm s0) (clampWpm e0)) / 2) * (s / 60) by
            linarith)
      linarith
    · push_neg at hrw1
      obtain ⟨t1, heq1, hq1, ht01, hts1⟩ := crs_quad_root R1 s0 e0 s hs hne hrw1 hR1
      rw [heq1]
      by_cases hrw2 : ((clampWpm s0 + max (clampWpm s0) (clampWpm e0)) / 2) * (s / 60) ≤ R2
      · rw [crs_outlast R2 s0 e0 s hs.le hrw2]
        have hnn : 0 ≤ (R2 - ((clampWpm s0 + max (clampWpm s0) (clampWpm e0)) / 2) * (s / 60)) /
            (max (clampWpm s0) (clampWpm e0) / 60) :=
          div_nonneg (by linarith) (by linarith)
        linarith
      · push_neg at hrw2
        obtain ⟨t2, heq2, hq2, ht02, hts2⟩ :=
          crs_quad_root R2 s0 e0 s hs hne hrw2 (lt_of_lt_of_le hR1 h)
        rw [heq2]
        have hle : ((max (clampWpm s0) (clampWpm e0) - clampWpm s0) / (2 * s)) * t1 ^ 2 +
            clampWpm s0 * t1 ≤
            ((max (clampWpm s0) (clampWpm e0) - clampWpm s0) / (2 * s)) * t2 ^ 2 +
              clampWpm s0 * t2 := by
          rw [hq1, hq2]
          linarith
        exact qmono (div_nonneg (by linarith [le_max_left (clampWpm s0) (clampWpm e0)])
          (by linarith)) (by linarith) ht01.le ht02.le hle

theorem est_nonneg (A : EstArgs) : 0 ≤ estimateReadTimeSeconds A := by
  simp only [estimateReadTimeSeconds]
  split_ifs with h1 h2 h3 h4 h5 h6
  · exact le_rfl
  · exact div_nonneg (not_le.mp h1).le (div_nonneg (clampWpm_pos _).le (by norm_num))
  · exact div_nonneg (not_le.mp h1).le (div_nonneg (clampWpm_pos _).le (by norm_num))
  · exact div_nonneg (not_le.mp h1).le
      (div_nonneg (le_trans (clampWpm_pos _).le (le_max_left _ _)) (by norm_num))
  · exact crs_nonneg _ _ _ _ (not_le.mp h1).le
  · exact crs_nonneg _ _ _ _ (not_le.mp h1).le
  · exact crs_nonneg _ _ _ _ (not_le.mp h1).le

theorem est_mono_wpm (W cur : ℝ) (asb pl : Bool) (tw rs rsw : ℝ) (rst : Option ℝ)
    (nw : ℝ) {w1 w2 : ℝ} (h : w1 ≤ w2) :
    estimateReadTimeSeconds ⟨W, w2, cur, asb, tw, rs, pl, rsw, rst, nw⟩ ≤
      estimateReadTimeSeconds ⟨W, w1, cur, asb, tw, rs, pl, rsw, rst, nw⟩ := by
  have hctm : max (clampWpm w1) (clampWpm tw) ≤ max (clampWpm w2) (clampWpm tw) :=
    max_le_max (clampWpm_mono h) le_rfl
  have hct1 : 0 < max (clampWpm w1) (clampWpm tw) :=
    lt_of_lt_of_le (clampWpm_pos w1) (le_max_left _ _)
  simp only [estimateReadTimeSeconds]
  split_ifs with h1 h2 h3 h4 h5 h6
  · exact le_rfl
  · exact le_rfl
  · exact div_rate_mono (not_le.mp h1).le (clampWpm_pos w1) (clampWpm_mono h)
  · exact div_rate_mono (not_le.mp h1).le hct1 hctm
  · have hW : 0 < W := not_le.mp h1
    have hP : 0 ≤ (max 0 (min (max 0 rs) ((nw - rst.getD nw) / 1000))) / (max 0 rs) :=
      div_nonneg (le_max_left 0 _) h6.le
    have hrsn : clampWpm rsw + (max (clampWpm w1) (clampWpm tw) - clampWpm rsw) *
          ((max 0 (min (max 0 rs) ((nw - rst.getD nw) / 1000))) / (max 0 rs)) ≤
        clampWpm rsw + (max (clampWpm w2) (clampWpm tw) - clampWpm rsw) *
          ((max 0 (min (max 0 rs) ((nw - rst.getD nw) / 1000))) / (max 0 rs)) := by
      nlinarith [mul_le_mul_of_nonneg_right (sub_le_sub_right hctm (clampWpm rsw)) hP]
    exact le_trans (crs_mono_start _ _ _ _ _ hW hrsn) (crs_mono_end _ _ _ _ _ hW hctm)
  · exact absurd (le_trans (not_lt.mp h6) (le_max_left 0 _)) h5
  · have hW : 0 < W := not_le.mp h1
    exact le_trans (crs_mono_start _ _ _ _ _ hW h) (crs_mono_end _ _ _ _ _ hW hctm)

theorem est_mono_current (W wp : ℝ) (asb pl : Bool) (tw rs rsw : ℝ) (rst : Option ℝ)
    (nw : ℝ) {c1 c2 : ℝ} (h : c1 ≤ c2) :
    estimateReadTimeSeconds ⟨W, wp, c2, asb, tw, rs, pl, rsw, rst, nw⟩ ≤
      estimateReadTimeSeconds ⟨W, wp, c1, asb, tw, rs, pl, rsw, rst, nw⟩ := by
  simp only [estimateReadTimeSeconds]
  split_ifs with h1 h2 h3 h4 h5 h6
  · exact le_rfl
  · exact div_rate_mono (not_le.mp h1).le (clampWpm_pos c1) (clampWpm_mono h)
  · exact le_rfl
  · exact le_rfl
  · exact le_rfl
  · exact le_rfl
  · exact le_rfl

theorem est_mono_target (W wp cur : ℝ) (asb pl : Bool) (rs rsw : ℝ) (rst : Option ℝ)
    (nw : ℝ) {t1 t2 : ℝ} (h : t1 ≤ t2) :
    estimateReadTimeSeconds ⟨W, wp, cur, asb, t2, rs, pl, rsw, rst, nw⟩ ≤
      estimateReadTimeSeconds ⟨W, wp, cur, asb, t1, rs, pl, rsw, rst, nw⟩ := by
  have hctm : max (clampWpm wp) (clampWpm t1) ≤ max (clampWpm wp) (clampWpm t2) :=
    max_le_max le_rfl (clampWpm_mono h)
  have hct1 : 0 < max (clampWpm wp) (clampWpm t1) :=
    lt_of_lt_of_le (clampWpm_pos wp) (le_max_left _ _)
  simp only [estimateReadTimeSeconds]
  split_ifs with h1 h2 h3 h4 h5 h6
  · exact le_rfl
  · exact le_rfl
  · exact le_rfl
  · exact div_rate_mono (not_le.mp h1).le hct1 hctm
  · have hW : 0 < W := not_le.mp h1
    have hP : 0 ≤ (max 0 (min (max 0 rs) ((nw - rst.getD nw) / 1000))) / (max 0 rs) :=
      div_nonneg (le_max_left 0 _) h6.le
    have hrsn : clampWpm rsw + (max (clampWpm wp) (clampWpm t1) - clampWpm rsw) *
          ((max 0 (min (max 0 rs) ((nw - rst.getD nw) / 1000))) / (max 0 rs)) ≤
        clampWpm rsw + (max (clampWpm wp) (clampWpm t2) - clampWpm rsw) *
          ((max 0 (min (max 0 rs) ((nw - rst.getD nw) / 1000))) / (max 0 rs)) := by
      nlinarith [mul_le_mul_of_nonneg_right (sub_le_sub_right hctm (clampWpm rsw)) hP]
    exact le_trans (crs_mono_start _ _ _ _ _ hW hrsn) (crs_mono_end _ _ _ _ _ hW hctm)
  · exact absurd (le_trans (not_lt.mp h6) (le_max_left 0 _)) h5
  · have hW : 0 < W := not_le.mp h1
    exact crs_mono_end _ _ _ _ _ hW hctm

theorem est_mono_rampStart (W wp cur : ℝ) (asb pl : Bool) (tw rs : ℝ) (rst : Option ℝ)
    (nw : ℝ) {r1 r2 : ℝ} (h : r1 ≤ r2) :
    estimateReadTimeSeconds ⟨W, wp, cur, asb, tw, rs, pl, r2, rst, nw⟩ ≤
      estimateReadTimeSeconds ⟨W, wp, cur, asb, tw, rs, pl, r1, rst, nw⟩ := by
  have hstm : clampWpm r1 ≤ clampWpm r2 := clampWpm_mono h
  simp only [estimateReadTimeSeconds]
  split_ifs with h1 h2 h3 h4 h5 h6
  · exact le_rfl
  · exact le_rfl
  · exact le_rfl
  · exact le_rfl
  · have hW : 0 < W := not_le.mp h1
    have hP : 0 ≤ (max 0 (min (max 0 rs) ((nw - rst.getD nw) / 1000))) / (max 0 rs) :=
      div_nonneg (le_max_left 0 _) h6.le
    have hP1 : (max 0 (min (max 0 rs) ((nw - rst.getD nw) / 1000))) / (max 0 rs) ≤ 1 :=
      (div_le_one h6).mpr (not_le.mp h5).le
    have hrsn : clampWpm r1 + (max (clampWpm wp) (clampWpm tw) - clampWpm r1) *
          ((max 0 (min (max 0 rs) ((nw - rst.getD nw) / 1000))) / (max 0 rs)) ≤
        clampWpm r2 + (max (clampWpm wp) (clampWpm tw) - clampWpm r2) *
          ((max 0 (min (max 0 rs) ((nw - rst.getD nw) / 1000))) / (max 0 rs)) := by
      nlinarith [mul_nonneg (sub_nonneg.mpr hstm) (sub_nonneg.mpr hP1)]
    exact crs_mono_start _ _ _ _ _ hW hrsn
  · exact absurd (le_trans (not_lt.mp h6) (le_max_left 0 _)) h5
  · exact le_rfl

theorem est_mono_words (wp cur : ℝ) (asb pl : Bool) (tw rs rsw : ℝ) (rst : Option ℝ)
    (nw : ℝ) {W1 W2 : ℝ} (h : W1 ≤ W2) :
    estimateReadTimeSeconds ⟨W1, wp, cur, asb, tw, rs, pl, rsw, rst, nw⟩ ≤
      estimateReadTimeSeconds ⟨W2, wp, cur, asb, tw, rs, pl, rsw, rst, nw⟩ := by
  by_cases h2 : W2 ≤ 0
  · have h1 : W1 ≤ 0 := le_trans h h2
    simp only [estimateReadTimeSeconds]
    rw [if_pos h1, if_pos h2]
  · by_cases h1 : W1 ≤ 0
    · have hL : estimateReadTimeSeconds ⟨W1, wp, cur, asb, tw, rs, pl, rsw, rst, nw⟩ = 0 := by
        simp only [estimateReadTimeSeconds]
        rw [if_pos h1]
      rw [hL]
      exact est_nonneg _
    · simp only [estimateReadTimeSeconds]
      rw [if_neg h1, if_neg h2]
      have hW1 : 0 < W1 := not_le.mp h1
      split_ifs with h3 h4 h5 h6 h7
      · exact (div_le_div_right (div_pos (clampWpm_pos cur) (by norm_num))).mpr h
      · exact (div_le_div_right (div_pos (clampWpm_pos wp) (by norm_num))).mpr h
      · exact (div_le_div_right (div_pos (lt_of_lt_of_le (clampWpm_pos wp)
          (le_max_left _ _)) (by norm_num))).mpr h
      · exact crs_mono_words _ _ _ _ _ hW1 h
      · exact absurd (le_trans (not_lt.mp h7) (le_max_left 0 _)) h6
      · exact crs_mono_words _ _ _ _ _ hW1 h

/-- Claim C8: holding every other argument fixed, the estimator is
non-increasing in each rate argument (`wpm`, `currentWpm`, `targetWpm`,
`rampStartWpm`) and non-decreasing in `wordsRemaining`, across all branches
including the ramp and quadratic branches. -/
theorem estimate_monotone :
    (∀ (A : EstArgs) (r r' : ℝ), r ≤ r' →
        estimateReadTimeSeconds { A with wpm := r' } ≤
            estimateReadTimeSeconds { A with wpm := r } ∧
        estimateReadTimeSeconds { A with currentWpm := r' } ≤
            estimateReadTimeSeconds { A with currentWpm := r } ∧
        estimateReadTimeSeconds { A with targetWpm := r' } ≤
            estimateReadTimeSeconds { A with targetWpm := r } ∧
        estimateReadTimeSeconds { A with rampStartWpm := r' } ≤
            estimateReadTimeSeconds { A with rampStartWpm := r }) ∧
    (∀ (A : EstArgs) (w w' : ℝ), w ≤ w' →
        estimateReadTimeSeconds { A with wordsRemaining := w } ≤
          estimateReadTimeSeconds { A with wordsRemaining := w' }) := by
  constructor
  · rintro ⟨W, wp, cur, asb, tw, rs, pl, rsw, rst, nw⟩ r r' h
    exact ⟨est_mono_wpm W cur asb pl tw rs rsw rst nw h,
      est_mono_current W wp asb pl tw rs rsw rst nw h,
      est_mono_target W wp cur asb pl rs rsw rst nw h,
      est_mono_rampStart W wp cur asb pl tw rs rst nw h⟩
  · rintro ⟨W, wp, cur, asb, tw, rs, pl, rsw, rst, nw⟩ w w' h
    exact est_mono_words wp cur asb pl tw rs rsw rst nw h

theorem estimate_monotone_witness :
    estimateReadTimeSeconds
        { wordsRemaining := 100, wpm := 400, currentWpm := 300, autoScaleEnabled := true,
          targetWpm := 600, rampSeconds := 30, isPlaying := true, rampStartWpm := 300,
          rampStartTimeMs := some 0, nowMs := 1000 } ≤
      estimateReadTimeSeconds
        { wordsRemaining := 100, wpm := 300, currentWpm := 300, autoScaleEnabled := true,
          targetWpm := 600, rampSeconds := 30, isPlaying := true, rampStartWpm := 300,
          rampStartTimeMs := some 0, nowMs := 1000 } :=
  (estimate_monotone.1
    { wordsRemaining := 100, wpm := 300, currentWpm := 300, autoScaleEnabled := true,
      targetWpm := 600, rampSeconds := 30, isPlaying := true, rampStartWpm := 300,
      rampStartTimeMs := some 0, nowMs := 1000 } 300 400 (by norm_num)).1
